import Mathlib

/-!
Verification of the extraction Lambda in `Extraction-Code.py`.

The handler is embedded shallowly: every external collaborator (the music
API's token endpoint, the two playlist endpoints, the object store and the
wall clock) is an oracle supplied by an `Env` record, and `lambda_handler`
is a pure function from `Env` to the trace of external calls it makes, the
objects it stores and its outcome.  The JSON payload is modelled by an AST
`JVal` with a serializer `dumps` following Python's `json.dumps` defaults
and a parser `loads` used to state the serialization round-trip.
-/

/-- JSON values as produced by the music API and consumed by `json.dumps`.
Modelled from the spec: the payload is an opaque dynamically structured
JSON document.  Numbers are modelled as integers; floating-point numbers
are outside the model. -/
inductive JVal where
  | null
  | bool (b : Bool)
  | num (n : Int)
  | str (s : String)
  | arr (elts : List JVal)
  | obj (fields : List (String × JVal))

/-- The decimal digit character for `d < 10` (any larger value renders as 9). -/
def digitChar : Nat → Char
  | 0 => '0'
  | 1 => '1'
  | 2 => '2'
  | 3 => '3'
  | 4 => '4'
  | 5 => '5'
  | 6 => '6'
  | 7 => '7'
  | 8 => '8'
  | _ => '9'

/-- Lower-case hexadecimal digit character for `d < 16`. -/
def hexDigitChar : Nat → Char
  | 0 => '0'
  | 1 => '1'
  | 2 => '2'
  | 3 => '3'
  | 4 => '4'
  | 5 => '5'
  | 6 => '6'
  | 7 => '7'
  | 8 => '8'
  | 9 => '9'
  | 10 => 'a'
  | 11 => 'b'
  | 12 => 'c'
  | 13 => 'd'
  | 14 => 'e'
  | _ => 'f'

/-- Decimal digits of `n`, most significant first, as Python's `str(int)`
renders a non-negative integer. -/
def natDigits (n : Nat) : List Char :=
  if n < 10 then [digitChar n]
  else natDigits (n / 10) ++ [digitChar (n % 10)]
termination_by n
decreasing_by exact Nat.div_lt_self (by omega) (by omega)

/-- Python's `str(int)`: optional minus sign followed by decimal digits. -/
def intChars (n : Int) : List Char :=
  if n < 0 then '-' :: natDigits n.natAbs else natDigits n.natAbs

/-- JSON string escaping of one character.
Modelled from the spec: Python's `json.dumps` string escaping (stdlib, not
part of the repository).  The quote, the backslash and control characters
are escaped, control characters uniformly as a 4-digit hex escape;
non-ASCII code points are left literal. -/
def escChar (c : Char) : List Char :=
  if c = '"' then ['\\', '"']
  else if c = '\\' then ['\\', '\\']
  else if c.toNat < 32 then
    ['\\', 'u', '0', '0', hexDigitChar (c.toNat / 16), hexDigitChar (c.toNat % 16)]
  else [c]

/-- JSON string escaping of a character list. -/
def escList : List Char → List Char
  | [] => []
  | c :: cs => escChar c ++ escList cs

/-- A JSON string literal: quote, escaped contents, quote. -/
def strChars (s : String) : List Char := '"' :: (escList s.data ++ ['"'])

mutual

/-- Characters of the `json.dumps` rendering of a value, with the default
separators: elements joined by comma-space, keys followed by colon-space. -/
def dumpChars : JVal → List Char
  | .null => "null".data
  | .bool true => "true".data
  | .bool false => "false".data
  | .num n => intChars n
  | .str s => strChars s
  | .arr [] => ['[', ']']
  | .arr (x :: xs) => '[' :: (dumpChars x ++ dumpElems xs)
  | .obj [] => ['\x7b', '\x7d']
  | .obj (kv :: kvs) => '\x7b' :: (dumpMember kv ++ dumpMembers kvs)

/-- Remaining array elements, each preceded by comma-space, then the
closing bracket. -/
def dumpElems : List JVal → List Char
  | [] => [']']
  | x :: xs => ',' :: ' ' :: (dumpChars x ++ dumpElems xs)

/-- One object member: quoted key, colon-space, value. -/
def dumpMember : String × JVal → List Char
  | (k, v) => strChars k ++ ':' :: ' ' :: dumpChars v

/-- Remaining object members, each preceded by comma-space, then the
closing brace. -/
def dumpMembers : List (String × JVal) → List Char
  | [] => ['\x7d']
  | kv :: kvs => ',' :: ' ' :: (dumpMember kv ++ dumpMembers kvs)

end

/-- The serialized JSON text of a value, as `json.dumps` produces it. -/
def dumps (j : JVal) : String := String.mk (dumpChars j)

/-- Numeric value of a hexadecimal digit character. -/
def hexVal (c : Char) : Nat :=
  if c.toNat ≥ 97 then c.toNat - 87
  else if c.toNat ≥ 65 then c.toNat - 55
  else c.toNat - 48

/-- Accumulating decimal value of a digit list (most significant first). -/
def digitsGo (a : Nat) : List Char → Nat
  | [] => a
  | c :: cs => digitsGo (10 * a + (c.toNat - 48)) cs

/-- Longest digit run at the front of the input, and the rest. -/
def takeDigits : List Char → List Char × List Char
  | [] => ([], [])
  | c :: cs =>
    if c.isDigit then
      let r := takeDigits cs
      (c :: r.1, r.2)
    else ([], c :: cs)

/-- Parse a non-empty run of decimal digits into a number. -/
def parseNatChars (l : List Char) : Option (Nat × List Char) :=
  match takeDigits l with
  | ([], _) => none
  | (ds, rest) => some (digitsGo 0 ds, rest)

/-- Parse the body of a JSON string literal after the opening quote,
undoing `escChar`; returns the content characters and the input after the
closing quote. -/
def parseStringBody : List Char → Option (List Char × List Char)
  | [] => none
  | c :: cs =>
    if c = '"' then some ([], cs)
    else if c = '\\' then
      match cs with
      | [] => none
      | e :: cs2 =>
        if e = '"' then (parseStringBody cs2).map (fun r => ('"' :: r.1, r.2))
        else if e = '\\' then (parseStringBody cs2).map (fun r => ('\\' :: r.1, r.2))
        else if e = 'u' then
          match cs2 with
          | h1 :: h2 :: h3 :: h4 :: cs3 =>
            (parseStringBody cs3).map (fun r =>
              (Char.ofNat (4096 * hexVal h1 + 256 * hexVal h2 + 16 * hexVal h3 + hexVal h4) :: r.1,
               r.2))
          | _ => none
        else none
    else (parseStringBody cs).map (fun r => (c :: r.1, r.2))
termination_by l => l.length
decreasing_by all_goals (simp_all; try omega)

mutual

/-- Fuel-indexed parser for one JSON value in the format emitted by
`dumpChars`; returns the value and the unconsumed input. -/
def parseVal : Nat → List Char → Option (JVal × List Char)
  | 0, _ => none
  | _ + 1, [] => none
  | fuel + 1, c :: cs =>
    if c = 'n' then
      match cs with
      | 'u' :: 'l' :: 'l' :: rest => some (.null, rest)
      | _ => none
    else if c = 't' then
      match cs with
      | 'r' :: 'u' :: 'e' :: rest => some (.bool true, rest)
      | _ => none
    else if c = 'f' then
      match cs with
      | 'a' :: 'l' :: 's' :: 'e' :: rest => some (.bool false, rest)
      | _ => none
    else if c = '"' then
      (parseStringBody cs).map (fun r => (.str (String.mk r.1), r.2))
    else if c = '[' then
      match cs with
      | [] => none
      | c2 :: cs2 =>
        if c2 = ']' then some (.arr [], cs2)
        else
          match parseVal fuel (c2 :: cs2) with
          | none => none
          | some (v, cs3) =>
            match parseElems fuel cs3 with
            | none => none
            | some (vs, rest) => some (.arr (v :: vs), rest)
    else if c = '\x7b' then
      match cs with
      | [] => none
      | c2 :: cs2 =>
        if c2 = '\x7d' then some (.obj [], cs2)
        else if c2 = '"' then
          match parseStringBody cs2 with
          | none => none
          | some (kcs, cs3) =>
            match cs3 with
            | ':' :: ' ' :: cs4 =>
              match parseVal fuel cs4 with
              | none => none
              | some (v, cs5) =>
                match parseMembers fuel cs5 with
                | none => none
                | some (kvs, rest) => some (.obj ((String.mk kcs, v) :: kvs), rest)
            | _ => none
        else none
    else if c = '-' then
      match cs with
      | [] => none
      | d :: _ =>
        if d.isDigit then (parseNatChars cs).map (fun r => (.num (-(r.1 : Int)), r.2))
        else none
    else if c.isDigit then
      (parseNatChars (c :: cs)).map (fun r => (.num (r.1 : Int), r.2))
    else none

/-- Fuel-indexed parser for the tail of an array: either the closing
bracket or comma-space and a further element. -/
def parseElems : Nat → List Char → Option (List JVal × List Char)
  | 0, _ => none
  | _ + 1, ']' :: rest => some ([], rest)
  | fuel + 1, ',' :: ' ' :: cs =>
    match parseVal fuel cs with
    | none => none
    | some (v, cs2) =>
      match parseElems fuel cs2 with
      | none => none
      | some (vs, rest) => some (v :: vs, rest)
  | _ + 1, _ => none

/-- Fuel-indexed parser for the tail of an object: either the closing
brace or comma-space and a further member. -/
def parseMembers : Nat → List Char → Option (List (String × JVal) × List Char)
  | 0, _ => none
  | _ + 1, '\x7d' :: rest => some ([], rest)
  | fuel + 1, ',' :: ' ' :: '"' :: cs =>
    match parseStringBody cs with
    | none => none
    | some (kcs, cs2) =>
      match cs2 with
      | ':' :: ' ' :: cs3 =>
        match parseVal fuel cs3 with
        | none => none
        | some (v, cs4) =>
          match parseMembers fuel cs4 with
          | none => none
          | some (kvs, rest) => some ((String.mk kcs, v) :: kvs, rest)
      | _ => none
  | _ + 1, _ => none

end

/-- Parsing as `json.loads` does, on the formats emitted by `dumps`: parse one value and
require the input to be fully consumed. -/
def loads (s : String) : Option JVal :=
  match parseVal (2 * s.data.length + 2) s.data with
  | some (v, []) => some v
  | _ => none

mutual

/-- Parser fuel needed for a value (any larger fuel also works). -/
def jsize : JVal → Nat
  | .null => 1
  | .bool _ => 1
  | .num _ => 1
  | .str _ => 1
  | .arr l => 1 + esize l
  | .obj kvs => 1 + msize kvs

/-- Parser fuel needed for an array tail. -/
def esize : List JVal → Nat
  | [] => 1
  | x :: xs => 1 + jsize x + esize xs

/-- Parser fuel needed for an object tail. -/
def msize : List (String × JVal) → Nat
  | [] => 1
  | (_, v) :: kvs => 1 + jsize v + msize kvs

end

/-- The input directly after a serialized value: empty, or starting with a
separator or closing bracket. -/
def delimB : List Char → Bool
  | [] => true
  | c :: _ => c = ',' || c = ']' || c = '\x7d'

/-- The input does not start with a decimal digit. -/
def noDigitHead : List Char → Bool
  | [] => true
  | c :: _ => !c.isDigit

theorem string_mk_data (s : String) : String.mk s.data = s := rfl

theorem jsize_pos (j : JVal) : 1 ≤ jsize j := by
  cases j <;> simp only [jsize] <;> omega

theorem esize_pos (l : List JVal) : 1 ≤ esize l := by
  cases l <;> simp only [esize] <;> omega

theorem msize_pos (l : List (String × JVal)) : 1 ≤ msize l := by
  cases l with
  | nil => simp only [msize]; omega
  | cons kv kvs => obtain ⟨k, v⟩ := kv; simp only [msize]; omega

theorem digit_facts : ∀ d : Fin 10,
    (digitChar d.val).isDigit = true ∧
    (digitChar d.val).toNat = 48 + d.val ∧
    digitChar d.val ≠ 'n' ∧ digitChar d.val ≠ 't' ∧ digitChar d.val ≠ 'f' ∧
    digitChar d.val ≠ '"' ∧ digitChar d.val ≠ '[' ∧ digitChar d.val ≠ '\x7b' ∧
    digitChar d.val ≠ '-' ∧ digitChar d.val ≠ ']' := by decide

theorem hexVal_hexDigitChar : ∀ x : Fin 16, hexVal (hexDigitChar x.val) = x.val := by decide

theorem natDigits_head (n : Nat) :
    ∃ d t, natDigits n = digitChar d :: t ∧ d < 10 := by
  induction n using Nat.strong_induction_on with
  | _ n ih =>
    by_cases h : n < 10
    · exact ⟨n, [], by rw [natDigits]; simp [h], h⟩
    · obtain ⟨d, t, hdt, hd⟩ := ih (n / 10) (Nat.div_lt_self (by omega) (by omega))
      exact ⟨d, t ++ [digitChar (n % 10)], by rw [natDigits]; simp [h, hdt], hd⟩

theorem natDigits_all_digits (n : Nat) :
    ∀ c ∈ natDigits n, c.isDigit = true := by
  induction n using Nat.strong_induction_on with
  | _ n ih =>
    by_cases h : n < 10
    · rw [natDigits]
      simp only [h, if_pos, List.mem_singleton]
      rintro c rfl
      exact (digit_facts ⟨n, h⟩).1
    · rw [natDigits]
      simp only [h, if_neg, List.mem_append, List.mem_singleton, not_false_iff]
      rintro c (hc | rfl)
      · exact ih (n / 10) (Nat.div_lt_self (by omega) (by omega)) c hc
      · exact (digit_facts ⟨n % 10, Nat.mod_lt _ (by omega)⟩).1

theorem digitsGo_append (l1 l2 : List Char) :
    ∀ a, digitsGo a (l1 ++ l2) = digitsGo (digitsGo a l1) l2 := by
  induction l1 with
  | nil => intro a; rfl
  | cons c cs ih => intro a; exact ih _

theorem digitsGo_natDigits (n : Nat) :
    ∀ a, digitsGo a (natDigits n) = a * 10 ^ (natDigits n).length + n := by
  induction n using Nat.strong_induction_on with
  | _ n ih =>
    intro a
    by_cases h : n < 10
    · rw [natDigits]
      simp only [h, if_pos]
      have hv := (digit_facts ⟨n, h⟩).2.1
      simp only [Fin.val_mk] at hv
      show 10 * a + ((digitChar n).toNat - 48) = a * 10 ^ (List.length [digitChar n]) + n
      rw [hv]
      simp only [List.length_singleton, pow_one]
      omega
    · rw [natDigits]
      simp only [h, if_neg, not_false_iff]
      rw [digitsGo_append]
      have hlt : n / 10 < n := Nat.div_lt_self (by omega) (by omega)
      rw [ih (n / 10) hlt]
      have hv := (digit_facts ⟨n % 10, Nat.mod_lt _ (by omega)⟩).2.1
      simp only [Fin.val_mk] at hv
      show 10 * (a * 10 ^ (natDigits (n / 10)).length + n / 10) +
            ((digitChar (n % 10)).toNat - 48) =
          a * 10 ^ (natDigits (n / 10) ++ [digitChar (n % 10)]).length + n
      rw [hv, List.length_append, List.length_singleton, pow_succ]
      have hmod := Nat.div_add_mod n 10
      generalize (10 : Nat) ^ (natDigits (n / 10)).length = B
      ring_nf
      omega

theorem takeDigits_append (l rest : List Char)
    (hl : ∀ c ∈ l, c.isDigit = true) (hrest : noDigitHead rest = true) :
    takeDigits (l ++ rest) = (l, rest) := by
  induction l with
  | nil =>
    cases rest with
    | nil => rfl
    | cons c cs =>
      simp only [noDigitHead, Bool.not_eq_true'] at hrest
      simp [takeDigits, hrest]
  | cons c cs ih =>
    have hc : c.isDigit = true := hl c (List.mem_cons_self c cs)
    have ih' := ih (fun x hx => hl x (List.mem_cons_of_mem c hx))
    simp [takeDigits, hc, ih']

theorem parseNatChars_natDigits (n : Nat) (rest : List Char)
    (hrest : noDigitHead rest = true) :
    parseNatChars (natDigits n ++ rest) = some (n, rest) := by
  obtain ⟨d, t, hdt, hd⟩ := natDigits_head n
  rw [parseNatChars, takeDigits_append _ _ (natDigits_all_digits n) hrest]
  have hval : digitsGo 0 (natDigits n) = n := by
    rw [digitsGo_natDigits]; simp
  rw [hdt] at hval ⊢
  simp [hval]

theorem parseStringBody_escList (l : List Char) :
    ∀ rest, parseStringBody (escList l ++ '"' :: rest) = some (l, rest) := by
  induction l with
  | nil =>
    intro rest
    rw [escList, List.nil_append, parseStringBody.eq_def]
    simp
  | cons c cs ih =>
    intro rest
    show parseStringBody ((escChar c ++ escList cs) ++ '"' :: rest) = some (c :: cs, rest)
    rw [List.append_assoc]
    by_cases h1 : c = '"'
    · subst h1
      have he : escChar '"' = ['\\', '"'] := rfl
      rw [he, List.cons_append, List.cons_append, List.nil_append, parseStringBody.eq_def]
      simp [ih]
    · by_cases h2 : c = '\\'
      · subst h2
        have he : escChar '\\' = ['\\', '\\'] := rfl
        rw [he, List.cons_append, List.cons_append, List.nil_append, parseStringBody.eq_def]
        simp [ih]
      · by_cases h3 : c.toNat < 32
        · have he : escChar c =
              ['\\', 'u', '0', '0', hexDigitChar (c.toNat / 16), hexDigitChar (c.toNat % 16)] := by
            simp [escChar, h1, h2, h3]
          rw [he]
          have e1 : hexVal (hexDigitChar (c.toNat / 16)) = c.toNat / 16 := by
            have := hexVal_hexDigitChar ⟨c.toNat / 16, by omega⟩
            simpa using this
          have e2 : hexVal (hexDigitChar (c.toNat % 16)) = c.toNat % 16 := by
            have := hexVal_hexDigitChar ⟨c.toNat % 16, by omega⟩
            simpa using this
          have e0 : hexVal '0' = 0 := rfl
          simp only [List.cons_append, List.nil_append]
          rw [parseStringBody.eq_def]
          simp [ih, e0, e1, e2]
          have ec : 16 * (c.toNat / 16) + c.toNat % 16 = c.toNat := by omega
          rw [ec]
          exact Char.ofNat_toNat c
        · have he : escChar c = [c] := by simp [escChar, h1, h2, h3]
          rw [he, List.cons_append, List.nil_append, parseStringBody.eq_def]
          simp [h1, h2, ih]

theorem delim_dumpElems (xs : List JVal) (rest : List Char) :
    delimB (dumpElems xs ++ rest) = true := by
  cases xs <;> simp [dumpElems, delimB]

theorem delim_dumpMembers (kvs : List (String × JVal)) (rest : List Char) :
    delimB (dumpMembers kvs ++ rest) = true := by
  cases kvs with
  | nil => simp [dumpMembers, delimB]
  | cons kv kvs => simp [dumpMembers, delimB]

theorem noDigitHead_of_delim (l : List Char) (h : delimB l = true) :
    noDigitHead l = true := by
  cases l with
  | nil => rfl
  | cons c cs =>
    simp only [delimB, Bool.or_eq_true, decide_eq_true_eq] at h
    rcases h with (h | h) | h <;> subst h <;> rfl

theorem dump_head (j : JVal) : ∃ c t, dumpChars j = c :: t ∧ c ≠ ']' := by
  cases j with
  | null => exact ⟨'n', ['u', 'l', 'l'], by simp [dumpChars], by decide⟩
  | bool b =>
    cases b
    · exact ⟨'f', ['a', 'l', 's', 'e'], by simp [dumpChars], by decide⟩
    · exact ⟨'t', ['r', 'u', 'e'], by simp [dumpChars], by decide⟩
  | num n =>
    by_cases h : n < 0
    · exact ⟨'-', natDigits n.natAbs, by simp [dumpChars, intChars, h], by decide⟩
    · obtain ⟨d, t, hdt, hd⟩ := natDigits_head n.natAbs
      refine ⟨digitChar d, t, by simp [dumpChars, intChars, h, hdt], ?_⟩
      exact (digit_facts ⟨d, hd⟩).2.2.2.2.2.2.2.2.2
  | str s => exact ⟨'"', escList s.data ++ ['"'], by simp [dumpChars, strChars], by decide⟩
  | arr l =>
    cases l with
    | nil => exact ⟨'[', [']'], by simp [dumpChars], by decide⟩
    | cons x xs => exact ⟨'[', dumpChars x ++ dumpElems xs, by simp [dumpChars], by decide⟩
  | obj l =>
    cases l with
    | nil => exact ⟨'\x7b', ['\x7d'], by simp [dumpChars], by decide⟩
    | cons kv kvs =>
      exact ⟨'\x7b', dumpMember kv ++ dumpMembers kvs, by simp [dumpChars], by decide⟩

theorem parse_dump (fuel : Nat) :
    (∀ j rest, jsize j ≤ fuel → delimB rest = true →
      parseVal fuel (dumpChars j ++ rest) = some (j, rest)) ∧
    (∀ xs rest, esize xs ≤ fuel →
      parseElems fuel (dumpElems xs ++ rest) = some (xs, rest)) ∧
    (∀ kvs rest, msize kvs ≤ fuel →
      parseMembers fuel (dumpMembers kvs ++ rest) = some (kvs, rest)) := by
  induction fuel with
  | zero =>
    refine ⟨fun j rest hj _ => absurd hj (by have := jsize_pos j; omega),
            fun xs rest hx => absurd hx (by have := esize_pos xs; omega),
            fun kvs rest hk => absurd hk (by have := msize_pos kvs; omega)⟩
  | succ fuel ih =>
    obtain ⟨ih1, ih2, ih3⟩ := ih
    refine ⟨?_, ?_, ?_⟩
    · intro j rest hj hrest
      cases j with
      | null =>
        rw [show dumpChars .null = ['n', 'u', 'l', 'l'] from by simp [dumpChars]]
        simp only [List.cons_append, List.nil_append, parseVal]
        rfl
      | bool b =>
        cases b
        · rw [show dumpChars (.bool false) = ['f', 'a', 'l', 's', 'e'] from by simp [dumpChars]]
          simp only [List.cons_append, List.nil_append, parseVal]
          rfl
        · rw [show dumpChars (.bool true) = ['t', 'r', 'u', 'e'] from by simp [dumpChars]]
          simp only [List.cons_append, List.nil_append, parseVal]
          rfl
      | num n =>
        have hnd := noDigitHead_of_delim rest hrest
        obtain ⟨d, t, hdt, hd⟩ := natDigits_head n.natAbs
        have hfacts := digit_facts ⟨d, hd⟩
        simp only [Fin.val_mk] at hfacts
        have hback : digitChar d :: (t ++ rest) = natDigits n.natAbs ++ rest := by
          rw [hdt, List.cons_append]
        by_cases hneg : n < 0
        · rw [show dumpChars (.num n) = '-' :: natDigits n.natAbs from by
            simp [dumpChars, intChars, hneg]]
          rw [List.cons_append, hdt, List.cons_append]
          simp only [parseVal, hfacts.1]
          rw [hback, parseNatChars_natDigits n.natAbs rest hnd]
          have hcast : -((n.natAbs : Int)) = n := by omega
          simp [hcast, abs_of_neg hneg]
        · rw [show dumpChars (.num n) = natDigits n.natAbs from by
            simp [dumpChars, intChars, hneg]]
          rw [hdt, List.cons_append]
          simp only [parseVal, hfacts.1, if_neg hfacts.2.2.1, if_neg hfacts.2.2.2.1,
            if_neg hfacts.2.2.2.2.1, if_neg hfacts.2.2.2.2.2.1, if_neg hfacts.2.2.2.2.2.2.1,
            if_neg hfacts.2.2.2.2.2.2.2.1, if_neg hfacts.2.2.2.2.2.2.2.2.1]
          rw [hback, parseNatChars_natDigits n.natAbs rest hnd]
          have hcast : ((n.natAbs : Int)) = n := by omega
          simp [hcast, abs_of_nonneg (show (0 : Int) ≤ n from by omega)]
      | str s =>
        rw [show dumpChars (.str s) = '"' :: (escList s.data ++ ['"']) from by
          simp [dumpChars, strChars]]
        rw [List.cons_append, List.append_assoc, List.singleton_append]
        simp only [parseVal]
        rw [parseStringBody_escList]
        rfl
      | arr l =>
        cases l with
        | nil =>
          rw [show dumpChars (.arr []) = ['[', ']'] from by simp [dumpChars]]
          simp only [List.cons_append, List.nil_append, parseVal]
          rfl
        | cons x xs =>
          have hsz : jsize (.arr (x :: xs)) = 2 + jsize x + esize xs := by
            simp [jsize, esize]; omega
          rw [show dumpChars (.arr (x :: xs)) = '[' :: (dumpChars x ++ dumpElems xs) from by
            simp [dumpChars]]
          obtain ⟨c, t, hx, hcne⟩ := dump_head x
          rw [List.cons_append, List.append_assoc, hx, List.cons_append]
          simp only [parseVal]
          simp only [if_neg hcne]
          have hback : c :: (t ++ (dumpElems xs ++ rest)) =
              dumpChars x ++ (dumpElems xs ++ rest) := by
            rw [hx, List.cons_append]
          rw [hback, ih1 x (dumpElems xs ++ rest) (by omega) (delim_dumpElems xs rest)]
          simp only [ih2 xs rest (by omega)]
          rfl
      | obj l =>
        cases l with
        | nil =>
          rw [show dumpChars (.obj []) = ['\x7b', '\x7d'] from by simp [dumpChars]]
          simp only [List.cons_append, List.nil_append, parseVal]
          rfl
        | cons kv kvs =>
          obtain ⟨k, v⟩ := kv
          have hsz : jsize (.obj ((k, v) :: kvs)) = 2 + jsize v + msize kvs := by
            simp [jsize, msize]; omega
          rw [show dumpChars (.obj ((k, v) :: kvs)) =
              '\x7b' :: (dumpMember (k, v) ++ dumpMembers kvs) from by simp [dumpChars]]
          rw [List.cons_append,
            show (dumpMember (k, v) ++ dumpMembers kvs) ++ rest =
              '"' :: (escList k.data ++
                '"' :: (':' :: ' ' :: (dumpChars v ++ (dumpMembers kvs ++ rest)))) from by
              simp [dumpMember, strChars]]
          simp only [parseVal]
          rw [parseStringBody_escList]
          simp only [ih1 v (dumpMembers kvs ++ rest) (by omega) (delim_dumpMembers kvs rest)]
          simp only [ih3 kvs rest (by omega)]
          rfl
    · intro xs rest hx
      cases xs with
      | nil =>
        rw [show dumpElems [] = [']'] from by simp [dumpElems]]
        rw [List.cons_append]
        simp only [parseElems]
        rfl
      | cons y ys =>
        have hsz : esize (y :: ys) = 1 + jsize y + esize ys := by simp [esize]
        rw [show dumpElems (y :: ys) = ',' :: ' ' :: (dumpChars y ++ dumpElems ys) from by
          simp [dumpElems]]
        rw [List.cons_append, List.cons_append, List.append_assoc]
        simp only [parseElems]
        rw [ih1 y (dumpElems ys ++ rest) (by omega) (delim_dumpElems ys rest)]
        simp only [ih2 ys rest (by omega)]
    · intro kvs rest hk
      cases kvs with
      | nil =>
        rw [show dumpMembers [] = ['\x7d'] from by simp [dumpMembers]]
        rw [List.cons_append]
        simp only [parseMembers]
        rfl
      | cons kv kvs =>
        obtain ⟨k, v⟩ := kv
        have hsz : msize ((k, v) :: kvs) = 1 + jsize v + msize kvs := by simp [msize]
        rw [show dumpMembers ((k, v) :: kvs) =
            ',' :: ' ' :: (dumpMember (k, v) ++ dumpMembers kvs) from by simp [dumpMembers]]
        rw [show ((',' :: ' ' :: (dumpMember (k, v) ++ dumpMembers kvs)) ++ rest) =
            ',' :: ' ' :: '"' :: (escList k.data ++
              '"' :: (':' :: ' ' :: (dumpChars v ++ (dumpMembers kvs ++ rest)))) from by
          simp [dumpMember, strChars]]
        simp only [parseMembers]
        rw [parseStringBody_escList]
        simp only [ih1 v (dumpMembers kvs ++ rest) (by omega) (delim_dumpMembers kvs rest)]
        simp only [ih3 kvs rest (by omega)]

theorem size_le_dump (bound : Nat) :
    (∀ j, jsize j ≤ bound → jsize j ≤ 2 * (dumpChars j).length) ∧
    (∀ xs, esize xs ≤ bound → esize xs ≤ 2 * (dumpElems xs).length) ∧
    (∀ kvs, msize kvs ≤ bound → msize kvs ≤ 2 * (dumpMembers kvs).length) := by
  induction bound with
  | zero =>
    refine ⟨fun j hj => absurd hj (by have := jsize_pos j; omega),
            fun xs hx => absurd hx (by have := esize_pos xs; omega),
            fun kvs hk => absurd hk (by have := msize_pos kvs; omega)⟩
  | succ bound ih =>
    obtain ⟨ih1, ih2, ih3⟩ := ih
    refine ⟨?_, ?_, ?_⟩
    · intro j hj
      cases j with
      | null => simp [jsize, dumpChars]
      | bool b => cases b <;> simp [jsize, dumpChars]
      | num n =>
        obtain ⟨d, t, hdt, _⟩ := natDigits_head n.natAbs
        by_cases hneg : n < 0 <;>
          simp [jsize, dumpChars, intChars, hneg, hdt] <;> omega
      | str s => simp [jsize, dumpChars, strChars]; omega
      | arr l =>
        cases l with
        | nil => simp [jsize, esize, dumpChars]
        | cons x xs =>
          have h1 : jsize x ≤ 2 * (dumpChars x).length := by
            apply ih1; simp [jsize, esize] at hj ⊢; omega
          have h2 : esize xs ≤ 2 * (dumpElems xs).length := by
            apply ih2; simp [jsize, esize] at hj ⊢; omega
          simp [jsize, esize, dumpChars] at h1 h2 ⊢
          omega
      | obj l =>
        cases l with
        | nil => simp [jsize, msize, dumpChars]
        | cons kv kvs =>
          obtain ⟨k, v⟩ := kv
          have h1 : jsize v ≤ 2 * (dumpChars v).length := by
            apply ih1; simp [jsize, msize] at hj ⊢; omega
          have h2 : msize kvs ≤ 2 * (dumpMembers kvs).length := by
            apply ih3; simp [jsize, msize] at hj ⊢; omega
          simp [jsize, msize, dumpChars, dumpMember] at h1 h2 ⊢
          omega
    · intro xs hx
      cases xs with
      | nil => simp [esize, dumpElems]
      | cons y ys =>
        have h1 : jsize y ≤ 2 * (dumpChars y).length := by
          apply ih1; simp [esize] at hx ⊢; omega
        have h2 : esize ys ≤ 2 * (dumpElems ys).length := by
          apply ih2; simp [esize] at hx ⊢; omega
        simp [esize, dumpElems] at h1 h2 ⊢
        omega
    · intro kvs hk
      cases kvs with
      | nil => simp [msize, dumpMembers]
      | cons kv kvs =>
        obtain ⟨k, v⟩ := kv
        have h1 : jsize v ≤ 2 * (dumpChars v).length := by
          apply ih1; simp [msize] at hk ⊢; omega
        have h2 : msize kvs ≤ 2 * (dumpMembers kvs).length := by
          apply ih3; simp [msize] at hk ⊢; omega
        simp [msize, dumpMembers, dumpMember] at h1 h2 ⊢
        omega

/-- Parsing inverts serialization on every JSON value: the serialized
text parses back to a structurally identical value. -/
theorem loads_dumps (j : JVal) : loads (dumps j) = some j := by
  have hsize : jsize j ≤ 2 * (dumpChars j).length :=
    (size_le_dump (jsize j)).1 j le_rfl
  have hmain := (parse_dump (2 * (dumpChars j).length + 2)).1 j []
    (by omega) rfl
  rw [List.append_nil] at hmain
  rw [loads]
  have hdata : (dumps j).data = dumpChars j := rfl
  rw [hdata, hmain]

/-- Exactly `k` decimal digits of `n`, most significant first, zero-padded
(the value is taken modulo `10 ^ k`). -/
def padDigits : Nat → Nat → List Char
  | 0, _ => []
  | k + 1, n => padDigits k (n / 10) ++ [digitChar (n % 10)]

theorem padDigits_length (k : Nat) : ∀ n, (padDigits k n).length = k := by
  induction k with
  | zero => intro n; rfl
  | succ k ih => intro n; simp [padDigits, ih]

theorem digitsGo_padDigits (k : Nat) :
    ∀ a n, digitsGo a (padDigits k n) = a * 10 ^ k + n % 10 ^ k := by
  induction k with
  | zero =>
    intro a n
    show a = a * 10 ^ 0 + n % 10 ^ 0
    simp [Nat.mod_one]
  | succ k ih =>
    intro a n
    rw [padDigits, digitsGo_append, ih]
    have hv := (digit_facts ⟨n % 10, Nat.mod_lt _ (by omega)⟩).2.1
    simp only [Fin.val_mk] at hv
    show 10 * (a * 10 ^ k + n / 10 % 10 ^ k) + ((digitChar (n % 10)).toNat - 48) =
      a * 10 ^ (k + 1) + n % 10 ^ (k + 1)
    rw [hv]
    have hsplit : n % 10 ^ (k + 1) = n % 10 + 10 * (n / 10 % 10 ^ k) := by
      rw [pow_succ, mul_comm, Nat.mod_mul]
    rw [hsplit, pow_succ]
    generalize (10 : Nat) ^ k = B
    ring_nf
    omega

theorem padDigits_inj (k a b : Nat) (ha : a < 10 ^ k) (hb : b < 10 ^ k)
    (h : padDigits k a = padDigits k b) : a = b := by
  have h1 := digitsGo_padDigits k 0 a
  have h2 := digitsGo_padDigits k 0 b
  rw [h] at h1
  rw [h1] at h2
  rw [Nat.mod_eq_of_lt ha, Nat.mod_eq_of_lt hb] at h2
  omega

theorem pad_append_inj (k a b : Nat) (r1 r2 : List Char)
    (h : padDigits k a ++ r1 = padDigits k b ++ r2) :
    padDigits k a = padDigits k b ∧ r1 = r2 :=
  List.append_inj h (by rw [padDigits_length, padDigits_length])

/-- A wall-clock reading as `datetime.now()` returns it: a naive local
date-time with microsecond precision. -/
structure Timestamp where
  year : Nat
  month : Nat
  day : Nat
  hour : Nat
  minute : Nat
  second : Nat
  microsecond : Nat
deriving DecidableEq, Repr

/-- Field ranges guaranteed for every value `datetime.now()` can return. -/
def Timestamp.Valid (t : Timestamp) : Prop :=
  1 ≤ t.year ∧ t.year ≤ 9999 ∧ 1 ≤ t.month ∧ t.month ≤ 12 ∧ 1 ≤ t.day ∧ t.day ≤ 31 ∧
    t.hour ≤ 23 ∧ t.minute ≤ 59 ∧ t.second ≤ 59 ∧ t.microsecond ≤ 999999

instance : DecidablePred Timestamp.Valid := fun t => by
  unfold Timestamp.Valid
  infer_instance

/-- The seconds-resolution part `YYYY-MM-DD HH:MM:SS` of the rendering. -/
def tsBaseChars (t : Timestamp) : List Char :=
  padDigits 4 t.year ++ '-' :: (padDigits 2 t.month ++ '-' :: (padDigits 2 t.day ++
    ' ' :: (padDigits 2 t.hour ++ ':' :: (padDigits 2 t.minute ++
      ':' :: padDigits 2 t.second))))

/-- The fractional-seconds suffix: absent when the microsecond field is 0,
otherwise a dot and six zero-padded digits. -/
def microPart (t : Timestamp) : List Char :=
  if t.microsecond = 0 then [] else '.' :: padDigits 6 t.microsecond

/-- Characters of `str(datetime)`. -/
def tsChars (t : Timestamp) : List Char :=
  padDigits 4 t.year ++ '-' :: (padDigits 2 t.month ++ '-' :: (padDigits 2 t.day ++
    ' ' :: (padDigits 2 t.hour ++ ':' :: (padDigits 2 t.minute ++
      ':' :: (padDigits 2 t.second ++ microPart t)))))

/-- Python's `str(datetime)` (equivalently `datetime.isoformat` with a
space separator).
Modelled from the spec: the stdlib rendering of a `datetime` (not part of
the repository): `YYYY-MM-DD HH:MM:SS` followed by `.ffffff` exactly when
the microsecond field is non-zero. -/
def pyStrOfDatetime (t : Timestamp) : String := String.mk (tsChars t)

theorem tsChars_eq_base_append (t : Timestamp) :
    tsChars t = tsBaseChars t ++ microPart t := by
  simp [tsChars, tsBaseChars, List.append_assoc]

theorem tsChars_inj (t1 t2 : Timestamp) (h1 : t1.Valid) (h2 : t2.Valid)
    (h : tsChars t1 = tsChars t2) : t1 = t2 := by
  obtain ⟨hy1a, hy1b, hmo1a, hmo1b, hd1a, hd1b, hh1, hmi1, hs1, hu1⟩ := h1
  obtain ⟨hy2a, hy2b, hmo2a, hmo2b, hd2a, hd2b, hh2, hmi2, hs2, hu2⟩ := h2
  have hp4 : (10 : Nat) ^ 4 = 10000 := by norm_num
  have hp2 : (10 : Nat) ^ 2 = 100 := by norm_num
  have hp6 : (10 : Nat) ^ 6 = 1000000 := by norm_num
  rw [tsChars, tsChars] at h
  obtain ⟨ey, h⟩ := pad_append_inj _ _ _ _ _ h
  have hyear : t1.year = t2.year :=
    padDigits_inj _ _ _ (by omega) (by omega) ey
  obtain ⟨-, h⟩ := List.cons_eq_cons.mp h
  obtain ⟨emo, h⟩ := pad_append_inj _ _ _ _ _ h
  have hmonth : t1.month = t2.month :=
    padDigits_inj _ _ _ (by omega) (by omega) emo
  obtain ⟨-, h⟩ := List.cons_eq_cons.mp h
  obtain ⟨ed, h⟩ := pad_append_inj _ _ _ _ _ h
  have hday : t1.day = t2.day :=
    padDigits_inj _ _ _ (by omega) (by omega) ed
  obtain ⟨-, h⟩ := List.cons_eq_cons.mp h
  obtain ⟨eh, h⟩ := pad_append_inj _ _ _ _ _ h
  have hhour : t1.hour = t2.hour :=
    padDigits_inj _ _ _ (by omega) (by omega) eh
  obtain ⟨-, h⟩ := List.cons_eq_cons.mp h
  obtain ⟨emi, h⟩ := pad_append_inj _ _ _ _ _ h
  have hminute : t1.minute = t2.minute :=
    padDigits_inj _ _ _ (by omega) (by omega) emi
  obtain ⟨-, h⟩ := List.cons_eq_cons.mp h
  obtain ⟨es, hm⟩ := pad_append_inj _ _ _ _ _ h
  have hsecond : t1.second = t2.second :=
    padDigits_inj _ _ _ (by omega) (by omega) es
  have hmicro : t1.microsecond = t2.microsecond := by
    by_cases hz1 : t1.microsecond = 0 <;> by_cases hz2 : t2.microsecond = 0
    · omega
    · rw [microPart, microPart, if_pos hz1, if_neg hz2] at hm
      exact absurd hm (by simp)
    · rw [microPart, microPart, if_neg hz1, if_pos hz2] at hm
      exact absurd hm (by simp)
    · rw [microPart, microPart, if_neg hz1, if_neg hz2] at hm
      obtain ⟨-, eu⟩ := List.cons_eq_cons.mp hm
      exact padDigits_inj _ _ _ (by omega) (by omega) eu
  obtain ⟨y1, mo1, d1, h1, mi1, s1, u1⟩ := t1
  obtain ⟨y2, mo2, d2, h2, mi2, s2, u2⟩ := t2
  simp_all

/-- Python's `str.split` with a one-character separator: splits at every
occurrence of the separator, keeping empty segments; `acc` holds the
current segment reversed. -/
def pySplitGo (sep : Char) : List Char → List Char → List String
  | [], acc => [String.mk acc.reverse]
  | c :: cs, acc =>
    if c = sep then String.mk acc.reverse :: pySplitGo sep cs []
    else pySplitGo sep cs (c :: acc)

/-- Python's `s.split(sep)` for a one-character separator. -/
def pySplit (s : String) (sep : Char) : List String := pySplitGo sep s.data []

/-- Python's `lst[-1]`: the last element (split never returns an empty
list, so the default is unreachable). -/
def pyLast (l : List String) : String := l.getLastD ""

/-- One object stored in the bucket by `put_object`. -/
structure S3Object where
  bucket : String
  key : String
  body : String
deriving DecidableEq, Repr

/-- An external operation performed by the handler, in the order the spec
lists them: the client-credentials token exchange (with the credential
values handed to `SpotifyClientCredentials`), the two Spotify Web API
calls, and the S3 write. -/
inductive ExtOp where
  | tokenExchange (clientId clientSecret : Option String)
  | userPlaylists (user : String)
  | playlistTracks (playlistId : String)
  | putObject (bucket key body : String)
deriving DecidableEq, Repr

/-- The ambient world of one invocation: the two environment variables
(`os.environ.get` returns none when unset), the outcome each external
collaborator would give to each request, and the wall clock read by
`datetime.now()`.  The trigger payload `event` and `context` are carried
only to show they are ignored. -/
structure Env where
  client_id : Option String
  client_secret : Option String
  tokenResult : Option String → Option String → Except String Unit
  userPlaylistsResult : String → Except String JVal
  playlistTracksResult : String → Except String JVal
  putObjectResult : String → String → String → Except String Unit
  now : Timestamp
  event : String
  context : String

/-- What one invocation did: the external calls attempted in order, the
objects that were actually created in storage, and the outcome (normal
completion or the propagated error). -/
structure RunResult where
  trace : List ExtOp
  stored : List S3Object
  outcome : Except String Unit
deriving Repr

/-- The hard-coded playlist URL (line 19 of the source). -/
def playlist_link : String := "https://open.spotify.com/playlist/3OK8UdRoB6IfDEa1pNJTQE"

/-- The value of `playlist_link.split('/')[-1]` (line 20 of the source). -/
def playlist_url : String := pyLast (pySplit playlist_link '/')

/-- The filename computed at line 26: `"spotify_raw_" + str(datetime.now()) + ".json"`. -/
def spotifyFilename (t : Timestamp) : String :=
  "spotify_raw_" ++ pyStrOfDatetime t ++ ".json"

/-- The object key passed to `put_object`: `"raw-data/to_processed/" + filename`. -/
def objectKey (t : Timestamp) : String :=
  "raw-data/to_processed/" ++ spotifyFilename t

/-- Shallow embedding of `lambda_handler` from `Extraction-Code.py`.
The steps follow the source linearly: read the two environment variables,
perform the client-credentials token exchange (delegated to the spotipy
client), call `user_playlists("spotify")` and discard the result, derive
the playlist id from the hard-coded URL, call `playlist_tracks`, and
upload `json.dumps` of the response to bucket `spotifyv` under the
timestamped key.  Any failing step aborts the run with that step's error;
a step's operation is recorded in the trace when it is attempted, and an
object is recorded in `stored` only when the put succeeds. -/
def lambda_handler (env : Env) : RunResult :=
  let client_id := env.client_id
  let client_secret := env.client_secret
  let trace0 := [ExtOp.tokenExchange client_id client_secret]
  match env.tokenResult client_id client_secret with
  | .error e => ⟨trace0, [], .error e⟩
  | .ok _ =>
    let trace1 := trace0 ++ [ExtOp.userPlaylists "spotify"]
    match env.userPlaylistsResult "spotify" with
    | .error e => ⟨trace1, [], .error e⟩
    | .ok _playlists =>
      let trace2 := trace1 ++ [ExtOp.playlistTracks playlist_url]
      match env.playlistTracksResult playlist_url with
      | .error e => ⟨trace2, [], .error e⟩
      | .ok spotify_data =>
        let key := objectKey env.now
        let body := dumps spotify_data
        let trace3 := trace2 ++ [ExtOp.putObject "spotifyv" key body]
        match env.putObjectResult "spotifyv" key body with
        | .error e => ⟨trace3, [], .error e⟩
        | .ok _ => ⟨trace3, [⟨"spotifyv", key, body⟩], .ok ()⟩

/-- The handler with the unused `user_playlists` call removed.
Modelled from the spec: the refinement the spec recommends, identical to
`lambda_handler` except that step 3 (the list-playlists warm-up call) is
dropped. -/
def lambda_handler_noWarmup (env : Env) : RunResult :=
  let client_id := env.client_id
  let client_secret := env.client_secret
  let trace0 := [ExtOp.tokenExchange client_id client_secret]
  match env.tokenResult client_id client_secret with
  | .error e => ⟨trace0, [], .error e⟩
  | .ok _ =>
    let trace2 := trace0 ++ [ExtOp.playlistTracks playlist_url]
    match env.playlistTracksResult playlist_url with
    | .error e => ⟨trace2, [], .error e⟩
    | .ok spotify_data =>
      let key := objectKey env.now
      let body := dumps spotify_data
      let trace3 := trace2 ++ [ExtOp.putObject "spotifyv" key body]
      match env.putObjectResult "spotifyv" key body with
      | .error e => ⟨trace3, [], .error e⟩
      | .ok _ => ⟨trace3, [⟨"spotifyv", key, body⟩], .ok ()⟩

/-- Is this operation an object-storage write? -/
def isPut : ExtOp → Bool
  | .putObject _ _ _ => true
  | _ => false

/-- The object-storage writes attempted during a run, in order. -/
def putCalls (ops : List ExtOp) : List ExtOp := ops.filter isPut

/-- Did the run complete normally? -/
def succeeded (r : RunResult) : Bool :=
  match r.outcome with
  | .ok _ => true
  | .error _ => false

theorem playlist_url_eq : playlist_url = "3OK8UdRoB6IfDEa1pNJTQE" := by decide

theorem objectKey_eq (t : Timestamp) :
    objectKey t = "raw-data/to_processed/spotify_raw_" ++ pyStrOfDatetime t ++ ".json" := rfl

theorem objectKey_data (t : Timestamp) :
    (objectKey t).data =
      "raw-data/to_processed/spotify_raw_".data ++ (tsChars t ++ ".json".data) := rfl

theorem objectKey_inj (t1 t2 : Timestamp) (h1 : t1.Valid) (h2 : t2.Valid)
    (h : objectKey t1 = objectKey t2) : t1 = t2 := by
  have hd : (objectKey t1).data = (objectKey t2).data := by rw [h]
  rw [objectKey_data, objectKey_data] at hd
  have hts : tsChars t1 = tsChars t2 :=
    List.append_cancel_right (List.append_cancel_left hd)
  exact tsChars_inj t1 t2 h1 h2 hts

theorem run_success_shape (env : Env)
    (h : (lambda_handler env).outcome = .ok ()) :
    ∃ d, env.playlistTracksResult playlist_url = .ok d ∧
      lambda_handler env =
        ⟨[ExtOp.tokenExchange env.client_id env.client_secret,
          ExtOp.userPlaylists "spotify",
          ExtOp.playlistTracks playlist_url,
          ExtOp.putObject "spotifyv" (objectKey env.now) (dumps d)],
         [⟨"spotifyv", objectKey env.now, dumps d⟩], .ok ()⟩ := by
  cases htok : env.tokenResult env.client_id env.client_secret with
  | error e => simp [lambda_handler, htok] at h
  | ok u =>
    cases hup : env.userPlaylistsResult "spotify" with
    | error e => simp [lambda_handler, htok, hup] at h
    | ok up =>
      cases hpt : env.playlistTracksResult playlist_url with
      | error e => simp [lambda_handler, htok, hup, hpt] at h
      | ok d =>
        cases hput : env.putObjectResult "spotifyv" (objectKey env.now) (dumps d) with
        | error e => simp [lambda_handler, htok, hup, hpt, hput] at h
        | ok w =>
          refine ⟨d, rfl, ?_⟩
          simp [lambda_handler, htok, hup, hpt, hput]

/-- The mocked track-list payload from the spec's example. -/
def examplePayload : JVal :=
  .obj [("items", .arr [.obj [("track", .obj [("name", .str "Song A")])]])]

/-- A clock reading used by the example environments. -/
def exampleClock : Timestamp := ⟨2025, 10, 12, 9, 30, 7, 123456⟩

/-- An environment in which every external call succeeds. -/
def envOk : Env :=
  ⟨some "abc", some "xyz", fun _ _ => .ok (), fun _ => .ok (.arr []),
   fun _ => .ok examplePayload, fun _ _ _ => .ok (), exampleClock, "event", "context"⟩

/-- An environment whose token exchange fails. -/
def envTokenFail : Env :=
  ⟨none, none, fun _ _ => .error "invalid client credentials", fun _ => .ok (.arr []),
   fun _ => .ok examplePayload, fun _ _ _ => .ok (), exampleClock, "event", "context"⟩

/-- An environment whose storage write fails. -/
def envPutFail : Env :=
  ⟨some "abc", some "xyz", fun _ _ => .ok (), fun _ => .ok (.arr []),
   fun _ => .ok examplePayload, fun _ _ _ => .error "access denied", exampleClock,
   "event", "context"⟩

/-- An environment whose list-playlists warm-up call fails while every
other collaborator would succeed. -/
def envWarmupFail : Env :=
  ⟨some "abc", some "xyz", fun _ _ => .ok (), fun _ => .error "list playlists unavailable",
   fun _ => .ok examplePayload, fun _ _ _ => .ok (), exampleClock, "event", "context"⟩

/-- A second successful environment sharing `envOk`'s clock reading but
answering the tracks call with a different payload. -/
def envOkOther : Env :=
  ⟨some "abc", some "xyz", fun _ _ => .ok (), fun _ => .ok (.arr []),
   fun _ => .ok (.str "other run"), fun _ _ _ => .ok (), exampleClock, "event", "context"⟩

/-- A successful environment whose clock reads microsecond zero. -/
def envMicroZero : Env :=
  ⟨some "abc", some "xyz", fun _ _ => .ok (), fun _ => .ok (.arr []),
   fun _ => .ok examplePayload, fun _ _ _ => .ok (), ⟨2025, 1, 2, 3, 4, 5, 0⟩,
   "event", "context"⟩

/-- A successful environment with a later clock than `envOk`. -/
def envOkLater : Env :=
  ⟨some "abc", some "xyz", fun _ _ => .ok (), fun _ => .ok (.arr []),
   fun _ => .ok examplePayload, fun _ _ _ => .ok (), ⟨2025, 10, 12, 9, 30, 7, 123457⟩,
   "event", "context"⟩

/-- C1: a successful invocation performs exactly one object-storage write,
to bucket `spotifyv`, at key `raw-data/to_processed/spotify_raw_` ++
`str(datetime.now())` ++ `.json`, with body `json.dumps` of the
playlist-tracks response, and that is exactly what is stored. -/
theorem successful_run_single_write (env : Env)
    (h : (lambda_handler env).outcome = .ok ()) :
    ∃ d, env.playlistTracksResult playlist_url = .ok d ∧
      putCalls (lambda_handler env).trace =
        [ExtOp.putObject "spotifyv"
          ("raw-data/to_processed/spotify_raw_" ++ pyStrOfDatetime env.now ++ ".json")
          (dumps d)] ∧
      (lambda_handler env).stored =
        [⟨"spotifyv",
          "raw-data/to_processed/spotify_raw_" ++ pyStrOfDatetime env.now ++ ".json",
          dumps d⟩] := by
  obtain ⟨d, hpt, hrun⟩ := run_success_shape env h
  refine ⟨d, hpt, ?_, ?_⟩ <;>
    rw [hrun] <;> simp [putCalls, isPut, objectKey_eq]

/-- C1 witness: on a concrete all-success environment the hypotheses hold
and the conclusion follows. -/
theorem successful_run_single_write_witness :
    ∃ d, envOk.playlistTracksResult playlist_url = .ok d ∧
      putCalls (lambda_handler envOk).trace =
        [ExtOp.putObject "spotifyv"
          ("raw-data/to_processed/spotify_raw_" ++ pyStrOfDatetime envOk.now ++ ".json")
          (dumps d)] ∧
      (lambda_handler envOk).stored =
        [⟨"spotifyv",
          "raw-data/to_processed/spotify_raw_" ++ pyStrOfDatetime envOk.now ++ ".json",
          dumps d⟩] :=
  successful_run_single_write envOk rfl

/-- C2: every invocation stores exactly one object when it completes
normally and exactly zero objects when any step fails. -/
theorem storage_writes_zero_or_one (env : Env) :
    (lambda_handler env).stored.length =
      (if succeeded (lambda_handler env) then 1 else 0) := by
  cases htok : env.tokenResult env.client_id env.client_secret with
  | error e => simp [lambda_handler, htok, succeeded]
  | ok u =>
    cases hup : env.userPlaylistsResult "spotify" with
    | error e => simp [lambda_handler, htok, hup, succeeded]
    | ok up =>
      cases hpt : env.playlistTracksResult playlist_url with
      | error e => simp [lambda_handler, htok, hup, hpt, succeeded]
      | ok d =>
        cases hput : env.putObjectResult "spotifyv" (objectKey env.now) (dumps d) with
        | error e => simp [lambda_handler, htok, hup, hpt, hput, succeeded]
        | ok w => simp [lambda_handler, htok, hup, hpt, hput, succeeded]

/-- C3: when the token exchange fails, the invocation aborts with that
error, no storage write is attempted and nothing is stored. -/
theorem token_failure_no_write (env : Env) (e : String)
    (h : env.tokenResult env.client_id env.client_secret = .error e) :
    (lambda_handler env).outcome = .error e ∧
    putCalls (lambda_handler env).trace = [] ∧
    (lambda_handler env).stored = [] := by
  simp [lambda_handler, h, putCalls, isPut]

/-- C3 witness: a concrete environment with failing credentials. -/
theorem token_failure_no_write_witness :
    (lambda_handler envTokenFail).outcome = .error "invalid client credentials" ∧
    putCalls (lambda_handler envTokenFail).trace = [] ∧
    (lambda_handler envTokenFail).stored = [] :=
  token_failure_no_write envTokenFail "invalid client credentials" rfl

/-- C5: the playlist identifier is the last segment of splitting the fixed
URL on a slash, equals the literal id, and every get-playlist-tracks call
any invocation makes uses exactly that constant identifier. -/
theorem playlist_id_from_split :
    playlist_url = pyLast (pySplit playlist_link '/') ∧
    playlist_url = "3OK8UdRoB6IfDEa1pNJTQE" ∧
    (∀ env s, ExtOp.playlistTracks s ∈ (lambda_handler env).trace →
      s = "3OK8UdRoB6IfDEa1pNJTQE") := by
  refine ⟨rfl, playlist_url_eq, ?_⟩
  intro env s hmem
  cases htok : env.tokenResult env.client_id env.client_secret with
  | error e =>
    simp [lambda_handler, htok] at hmem
  | ok u =>
    cases hup : env.userPlaylistsResult "spotify" with
    | error e => simp [lambda_handler, htok, hup] at hmem
    | ok up =>
      cases hpt : env.playlistTracksResult playlist_url with
      | error e =>
        simp [lambda_handler, htok, hup, hpt] at hmem
        rw [hmem, playlist_url_eq]
      | ok d =>
        cases hput : env.putObjectResult "spotifyv" (objectKey env.now) (dumps d) with
        | error e =>
          simp [lambda_handler, htok, hup, hpt, hput] at hmem
          rw [hmem, playlist_url_eq]
        | ok w =>
          simp [lambda_handler, htok, hup, hpt, hput] at hmem
          rw [hmem, playlist_url_eq]

/-- C5 witness: the playlist-tracks call of a concrete successful run
indeed carries the constant identifier. -/
theorem playlist_id_from_split_witness :
    playlist_url = "3OK8UdRoB6IfDEa1pNJTQE" ∧
    "3OK8UdRoB6IfDEa1pNJTQE" = "3OK8UdRoB6IfDEa1pNJTQE" :=
  ⟨playlist_id_from_split.2.1,
   playlist_id_from_split.2.2 envOk "3OK8UdRoB6IfDEa1pNJTQE"
     (by rw [← playlist_url_eq]; exact List.mem_cons_of_mem _ (List.mem_cons_of_mem _
       (List.mem_cons_self _ _)))⟩

/-- C7: a successful invocation performs exactly the four external
operations, in order: token exchange, list-playlists for user `spotify`,
get-playlist-tracks for the constant id, and the single storage write. -/
theorem successful_run_four_ops (env : Env)
    (h : (lambda_handler env).outcome = .ok ()) :
    ∃ d, env.playlistTracksResult playlist_url = .ok d ∧
      (lambda_handler env).trace =
        [ExtOp.tokenExchange env.client_id env.client_secret,
         ExtOp.userPlaylists "spotify",
         ExtOp.playlistTracks "3OK8UdRoB6IfDEa1pNJTQE",
         ExtOp.putObject "spotifyv" (objectKey env.now) (dumps d)] := by
  obtain ⟨d, hpt, hrun⟩ := run_success_shape env h
  exact ⟨d, hpt, by rw [hrun, ← playlist_url_eq]⟩

/-- C7 witness: the four-operation trace of a concrete successful run. -/
theorem successful_run_four_ops_witness :
    ∃ d, envOk.playlistTracksResult playlist_url = .ok d ∧
      (lambda_handler envOk).trace =
        [ExtOp.tokenExchange envOk.client_id envOk.client_secret,
         ExtOp.userPlaylists "spotify",
         ExtOp.playlistTracks "3OK8UdRoB6IfDEa1pNJTQE",
         ExtOp.putObject "spotifyv" (objectKey envOk.now) (dumps d)] :=
  successful_run_four_ops envOk rfl

/-- C4: `json.loads` inverts `json.dumps` on every payload, and a
successful run stores exactly the serialization of the playlist-tracks
response as the body, so parsing the stored body yields the response. -/
theorem uploaded_body_roundtrip :
    (∀ j : JVal, loads (dumps j) = some j) ∧
    (∀ env d, (lambda_handler env).outcome = .ok () →
      env.playlistTracksResult playlist_url = .ok d →
      (lambda_handler env).stored.map S3Object.body = [dumps d] ∧
      loads (dumps d) = some d) := by
  refine ⟨loads_dumps, ?_⟩
  intro env d h hpt
  obtain ⟨d', hpt', hrun⟩ := run_success_shape env h
  rw [hpt] at hpt'
  injection hpt' with hd
  subst hd
  rw [hrun]
  exact ⟨rfl, loads_dumps d⟩

/-- C4 witness: the spec's example payload round-trips and is the stored
body of a concrete successful run. -/
theorem uploaded_body_roundtrip_witness :
    (lambda_handler envOk).stored.map S3Object.body = [dumps examplePayload] ∧
    loads (dumps examplePayload) = some examplePayload :=
  uploaded_body_roundtrip.2 envOk examplePayload rfl rfl

/-- C6: a failing storage write makes the invocation fail with exactly
that error after exactly one attempted write and nothing stored; more
generally every error outcome is the unmodified error of one of the four
external steps, and no run ever attempts a second write. -/
theorem failure_propagation :
    (∀ env e u d,
      env.tokenResult env.client_id env.client_secret = .ok () →
      env.userPlaylistsResult "spotify" = .ok u →
      env.playlistTracksResult playlist_url = .ok d →
      env.putObjectResult "spotifyv" (objectKey env.now) (dumps d) = .error e →
      (lambda_handler env).outcome = .error e ∧
        putCalls (lambda_handler env).trace =
          [ExtOp.putObject "spotifyv" (objectKey env.now) (dumps d)] ∧
        (lambda_handler env).stored = []) ∧
    (∀ env e, (lambda_handler env).outcome = .error e →
      env.tokenResult env.client_id env.client_secret = .error e ∨
      env.userPlaylistsResult "spotify" = .error e ∨
      env.playlistTracksResult playlist_url = .error e ∨
      ∃ k b, env.putObjectResult "spotifyv" k b = .error e) ∧
    (∀ env, (putCalls (lambda_handler env).trace).length ≤ 1) := by
  refine ⟨?_, ?_, ?_⟩
  · intro env e u d htok hup hpt hput
    simp [lambda_handler, htok, hup, hpt, hput, putCalls, isPut]
  · intro env e h
    cases htok : env.tokenResult env.client_id env.client_secret with
    | error e' =>
      simp [lambda_handler, htok] at h
      exact Or.inl (by rw [h])
    | ok u =>
      cases hup : env.userPlaylistsResult "spotify" with
      | error e' =>
        simp [lambda_handler, htok, hup] at h
        exact Or.inr (Or.inl (by rw [h]))
      | ok up =>
        cases hpt : env.playlistTracksResult playlist_url with
        | error e' =>
          simp [lambda_handler, htok, hup, hpt] at h
          exact Or.inr (Or.inr (Or.inl (by rw [h])))
        | ok d =>
          cases hput : env.putObjectResult "spotifyv" (objectKey env.now) (dumps d) with
          | error e' =>
            simp [lambda_handler, htok, hup, hpt, hput] at h
            exact Or.inr (Or.inr (Or.inr
              ⟨objectKey env.now, dumps d, by rw [← h]; exact hput⟩))
          | ok w => simp [lambda_handler, htok, hup, hpt, hput] at h
  · intro env
    cases htok : env.tokenResult env.client_id env.client_secret with
    | error e => simp [lambda_handler, htok, putCalls, isPut]
    | ok u =>
      cases hup : env.userPlaylistsResult "spotify" with
      | error e => simp [lambda_handler, htok, hup, putCalls, isPut]
      | ok up =>
        cases hpt : env.playlistTracksResult playlist_url with
        | error e => simp [lambda_handler, htok, hup, hpt, putCalls, isPut]
        | ok d =>
          cases hput : env.putObjectResult "spotifyv" (objectKey env.now) (dumps d) with
          | error e => simp [lambda_handler, htok, hup, hpt, hput, putCalls, isPut]
          | ok w => simp [lambda_handler, htok, hup, hpt, hput, putCalls, isPut]

/-- C6 witness: a concrete environment whose storage write is denied. -/
theorem failure_propagation_witness :
    (lambda_handler envPutFail).outcome = .error "access denied" ∧
      putCalls (lambda_handler envPutFail).trace =
        [ExtOp.putObject "spotifyv" (objectKey envPutFail.now) (dumps examplePayload)] ∧
      (lambda_handler envPutFail).stored = [] :=
  failure_propagation.1 envPutFail "access denied" (.arr []) examplePayload rfl rfl rfl rfl

/-- C8 counterexample: two distinct successful invocations (they store
different bodies) whose clocks read the same microsecond produce the same
storage key, so back-to-back keys are not always distinct. -/
theorem back_to_back_key_collision :
    succeeded (lambda_handler envOk) = true ∧
    succeeded (lambda_handler envOkOther) = true ∧
    (lambda_handler envOk).stored.map S3Object.body ≠
      (lambda_handler envOkOther).stored.map S3Object.body ∧
    (lambda_handler envOk).stored.map S3Object.key =
      (lambda_handler envOkOther).stored.map S3Object.key := by
  refine ⟨rfl, rfl, ?_, rfl⟩
  intro hcontra
  have hb : dumps examplePayload = dumps (.str "other run") := by
    have h' : ([dumps examplePayload] : List String) = [dumps (.str "other run")] := hcontra
    exact (List.cons_eq_cons.mp h').1
  have hload := loads_dumps examplePayload
  rw [hb, loads_dumps] at hload
  injection hload with hj
  exact JVal.noConfusion hj

/-- C8 amended: two invocations whose (valid) clock readings differ
produce distinct storage keys; only invocations with identical
microsecond-resolution readings can collide. -/
theorem distinct_clock_distinct_keys (env1 env2 : Env)
    (hv1 : env1.now.Valid) (hv2 : env2.now.Valid) (hne : env1.now ≠ env2.now)
    (h1 : (lambda_handler env1).outcome = .ok ())
    (h2 : (lambda_handler env2).outcome = .ok ()) :
    (lambda_handler env1).stored.map S3Object.key ≠
      (lambda_handler env2).stored.map S3Object.key := by
  obtain ⟨d1, -, hrun1⟩ := run_success_shape env1 h1
  obtain ⟨d2, -, hrun2⟩ := run_success_shape env2 h2
  rw [hrun1, hrun2]
  intro hcontra
  have hk : objectKey env1.now = objectKey env2.now := by
    have h' : ([objectKey env1.now] : List String) = [objectKey env2.now] := hcontra
    exact (List.cons_eq_cons.mp h').1
  exact hne (objectKey_inj _ _ hv1 hv2 hk)

/-- C8 amended witness: two concrete successful runs one microsecond
apart have distinct keys. -/
theorem distinct_clock_distinct_keys_witness :
    (lambda_handler envOk).stored.map S3Object.key ≠
      (lambda_handler envOkLater).stored.map S3Object.key :=
  distinct_clock_distinct_keys envOk envOkLater (by decide) (by decide) (by decide) rfl rfl

/-- C9 counterexample: in an environment where the list-playlists call
fails (and everything else would succeed), the original handler stores
nothing and aborts while the handler without the warm-up call stores an
object and completes, so the two are not observably equivalent on every
environment. -/
theorem warmup_removal_not_equiv_on_failure :
    (lambda_handler envWarmupFail).stored = [] ∧
    (lambda_handler_noWarmup envWarmupFail).stored.length = 1 ∧
    (lambda_handler envWarmupFail).stored ≠ (lambda_handler_noWarmup envWarmupFail).stored ∧
    (lambda_handler envWarmupFail).outcome ≠ (lambda_handler_noWarmup envWarmupFail).outcome := by
  refine ⟨rfl, rfl, ?_, ?_⟩
  · intro h
    have h0 : (lambda_handler envWarmupFail).stored.length = 0 := rfl
    have h1 : (lambda_handler_noWarmup envWarmupFail).stored.length = 1 := rfl
    rw [h] at h0
    omega
  · intro h
    have h0 : (lambda_handler envWarmupFail).outcome = .error "list playlists unavailable" :=
      rfl
    have h1 : (lambda_handler_noWarmup envWarmupFail).outcome = .ok () := rfl
    rw [h0, h1] at h
    exact Except.noConfusion h

/-- C9 amended: whenever the list-playlists call succeeds, the handler
with that call removed is observably equivalent to the original: same
stored objects and same outcome, for every environment and clock. -/
theorem warmup_call_removal_equivalent (env : Env) (u : JVal)
    (h : env.userPlaylistsResult "spotify" = .ok u) :
    (lambda_handler_noWarmup env).stored = (lambda_handler env).stored ∧
    (lambda_handler_noWarmup env).outcome = (lambda_handler env).outcome := by
  cases htok : env.tokenResult env.client_id env.client_secret with
  | error e => simp [lambda_handler, lambda_handler_noWarmup, htok]
  | ok w =>
    cases hpt : env.playlistTracksResult playlist_url with
    | error e => simp [lambda_handler, lambda_handler_noWarmup, htok, h, hpt]
    | ok d =>
      cases hput : env.putObjectResult "spotifyv" (objectKey env.now) (dumps d) with
      | error e => simp [lambda_handler, lambda_handler_noWarmup, htok, h, hpt, hput]
      | ok w2 => simp [lambda_handler, lambda_handler_noWarmup, htok, h, hpt, hput]

/-- C9 amended witness: on a concrete all-success environment the two
handlers store the same object and agree on the outcome. -/
theorem warmup_call_removal_equivalent_witness :
    (lambda_handler_noWarmup envOk).stored = (lambda_handler envOk).stored ∧
    (lambda_handler_noWarmup envOk).outcome = (lambda_handler envOk).outcome :=
  warmup_call_removal_equivalent envOk (.arr []) rfl

/-- C10 counterexample: when the clock reads microsecond zero, Python's
`str(datetime)` renders no fractional part at all — the timestamp in the
key is `YYYY-MM-DD HH:MM:SS`, not of the form with a `.ffffff` suffix. -/
theorem timestamp_zero_micro_no_fraction :
    pyStrOfDatetime (⟨2025, 1, 2, 3, 4, 5, 0⟩ : Timestamp) = "2025-01-02 03:04:05" ∧
    ('.' ∈ (pyStrOfDatetime (⟨2025, 1, 2, 3, 4, 5, 0⟩ : Timestamp)).data → False) ∧
    (lambda_handler envMicroZero).stored.map S3Object.key =
      ["raw-data/to_processed/spotify_raw_2025-01-02 03:04:05.json"] := by
  refine ⟨by decide, by decide, rfl⟩

/-- C10 amended: the key's timestamp is `str(datetime.now())`, which is
`YYYY-MM-DD HH:MM:SS` followed by `.ffffff` exactly when the microsecond
field is non-zero; it always contains a space and colons, and it is
injective on valid readings, so key uniqueness holds exactly down to
microsecond clock resolution. -/
theorem timestamp_format :
    (∀ env, (lambda_handler env).outcome = .ok () →
      (lambda_handler env).stored.map S3Object.key =
        ["raw-data/to_processed/spotify_raw_" ++ pyStrOfDatetime env.now ++ ".json"]) ∧
    (∀ t : Timestamp, t.microsecond = 0 → tsChars t = tsBaseChars t) ∧
    (∀ t : Timestamp, t.microsecond ≠ 0 →
      tsChars t = tsBaseChars t ++ '.' :: padDigits 6 t.microsecond) ∧
    (∀ t : Timestamp, ' ' ∈ tsChars t ∧ ':' ∈ tsChars t) ∧
    (∀ t1 t2 : Timestamp, t1.Valid → t2.Valid →
      pyStrOfDatetime t1 = pyStrOfDatetime t2 → t1 = t2) := by
  refine ⟨?_, ?_, ?_, ?_, ?_⟩
  · intro env h
    obtain ⟨d, -, hrun⟩ := run_success_shape env h
    rw [hrun]
    simp [objectKey_eq]
  · intro t h
    rw [tsChars_eq_base_append, microPart, if_pos h, List.append_nil]
  · intro t h
    rw [tsChars_eq_base_append, microPart, if_neg h]
  · intro t
    constructor <;> simp [tsChars]
  · intro t1 t2 hv1 hv2 h
    exact tsChars_inj t1 t2 hv1 hv2 (congrArg String.data h)

/-- C10 amended witness: concrete instances of the format facts. -/
theorem timestamp_format_witness :
    (lambda_handler envOk).stored.map S3Object.key =
      ["raw-data/to_processed/spotify_raw_" ++ pyStrOfDatetime envOk.now ++ ".json"] ∧
    tsChars (⟨2025, 1, 2, 3, 4, 5, 0⟩ : Timestamp) =
      tsBaseChars (⟨2025, 1, 2, 3, 4, 5, 0⟩ : Timestamp) ∧
    tsChars exampleClock =
      tsBaseChars exampleClock ++ '.' :: padDigits 6 exampleClock.microsecond :=
  ⟨timestamp_format.1 envOk rfl, timestamp_format.2.1 _ rfl,
   timestamp_format.2.2.1 exampleClock (by decide)⟩
